import Mathlib

/-!
Verification of the git-source subsystem of a dependency manager
(`src/cargo/sources/git/source.rs`): URL canonicalization, source-identity
derivation, and the update/query/download/fingerprint lifecycle of
`GitSource`.

The embedding models URLs at the level the source manipulates them through
the `url` crate API: a URL is a record of scheme, credentials, host, path
segments, query and fragment.  The path string of a URL with a host is
`"/" ++ intercalate "/" segments` (the crate keeps at least the root path
`"/"`, i.e. a single empty segment).  The path-string tests of the source
(`ends_with('/')`, `ends_with(".git")`) are stated on segments: a path ends
with a separator iff its last segment is empty, and ends with `".git"` iff
its last segment does (the suffix contains no separator).  Machine hashing
is modelled over the serialized canonical URL.
-/

set_option autoImplicit false

/-- Lowercasing of a string, character by character.  Models Rust
`str::to_lowercase` on the ASCII range (the approximation the source itself
documents as a heuristic). -/
def lowerStr (s : String) : String := ⟨s.data.map Char.toLower⟩

/-- Suffix test on strings, via the character lists.  Models Rust
`str::ends_with`. -/
def strEndsWith (s suffix : String) : Bool := List.isSuffixOf suffix.data s.data

/-- Drop the final `n` characters of a string.  Models the Rust byte slice
`&last[..last.len() - n]` for an ASCII suffix of length `n` (dropping the
4 ASCII bytes of `".git"` is the only use). -/
def strDropRight (s : String) (n : Nat) : String := ⟨s.data.take (s.data.length - n)⟩

/-- Model of `url::PathSegmentsMut::pop_if_empty`: remove the last path
segment if it is empty, except when the path is just the root `"/"`
(a single empty segment), which the crate leaves untouched. -/
def popIfEmpty (segs : List String) : List String :=
  if 2 ≤ segs.length ∧ segs.getLast? = some (("" : String)) then segs.dropLast else segs

/-- Model of `url::PathSegmentsMut::pop`: remove the last path segment;
the path never goes below the root `"/"` (a single empty segment). -/
def popSeg (segs : List String) : List String :=
  if segs.length ≤ 1 then [("" : String)] else segs.dropLast

/-- Model of `url::PathSegmentsMut::push`: append a segment.  Pushing onto
the root path `"/"` replaces the single empty segment (the crate does not
introduce a second separator there), and pushing the empty segment onto the
root leaves the root.  The crate additionally ignores the segments `"."`
and `".."`; segments of a parsed URL never take those values, and the
theorems below exclude them where the distinction could matter. -/
def pushSeg (segs : List String) (s : String) : List String :=
  if segs = [("" : String)] then (if s = ("" : String) then [("" : String)] else [s])
  else segs ++ [s]

/-- A URL as the source observes it through the `url` crate: scheme,
credentials, host, path segments, query and fragment.  Ports are not
touched by the source and are not modelled. -/
structure Url where
  scheme : String
  username : String
  password : Option String
  host : Option String
  segments : List String
  query : Option String
  fragment : Option String
deriving DecidableEq

/-- The path string of a URL, as serialized by the `url` crate for a URL
with a host: a leading separator followed by the segments. -/
def Url.path (u : Url) : String :=
  String.append (String.mk [Char.ofNat 47]) (String.intercalate (String.mk [Char.ofNat 47]) u.segments)

/-- Serialization of a URL, as hashed by the `Hash` instance of
`url::Url` (which hashes the serialization string). -/
def Url.serialize (u : Url) : String :=
  u.scheme ++ ("://" : String) ++
  (if u.username = ("" : String) ∧ u.password = none then ("" : String)
   else u.username ++ (match u.password with
     | some p => (":" : String) ++ p
     | none => ("" : String)) ++ ("@" : String)) ++
  (u.host.getD ("" : String)) ++ u.path ++
  (match u.query with
   | some q => ("?" : String) ++ q
   | none => ("" : String)) ++
  (match u.fragment with
   | some f => ("#" : String) ++ f
   | none => ("" : String))

/-- The test `url.path().ends_with(".git")` of the source, stated on
segments: the suffix `".git"` contains no separator, so the path string
ends with it iff the final segment does. -/
def needsChopping (segs : List String) : Bool :=
  strEndsWith ((segs.getLast?).getD (("" : String))) (".git")

/-- Embedding of `canonicalize_url` from the source: strip one trailing
path separator; for the host `github.com` force the scheme to `https` and
lowercase the path; strip a trailing `".git"` via pop and push of the final
segment.  The guard of the first step, `url.path().ends_with('/')`, holds
iff the last segment is empty. -/
def canonicalize_url (url : Url) : Url :=
  -- Strip a trailing slash
  let url1 := if url.segments.getLast? = some (("" : String)) then
    { url with segments := popIfEmpty url.segments } else url
  -- For github.com specifically, force https and lowercase everything
  let url2 := if url1.host = some ("github.com" : String) then
    { url1 with scheme := ("https" : String), segments := url1.segments.map lowerStr }
  else url1
  -- Repos generally can be accessed with or without a trailing ".git"
  if needsChopping url2.segments then
    let last := strDropRight ((url2.segments.getLast?).getD (("" : String))) 4
    { url2 with segments := pushSeg (popSeg url2.segments) last }
  else url2

/-- Modelled from the spec: `util::hex::short_hash` is not part of the
excerpt under src/; the spec says only that the identity appends a short
hash computed over the full canonical URL.  Modelled as a deterministic
64-bit FNV-1a fold over the serialized canonical URL, rendered as a
fixed-width hexadecimal string. -/
def short_hash (s : String) : String :=
  let h := s.data.foldl
    (fun h c => ((h ^^^ c.toNat) * 1099511628211) % 18446744073709551616)
    14695981039346656037
  let ds := Nat.toDigits 16 h
  String.mk (List.replicate (16 - ds.length) (Char.ofNat 48) ++ ds)

/-- Embedding of `ident` from the source: canonicalize, take the last path
segment (`path_segments().and_then(next_back).unwrap_or("")`), substitute
the placeholder `"_empty"` for an empty tag, and join with a dash to the
short hash of the canonical URL. -/
def ident (url : Url) : String :=
  let url := canonicalize_url url
  let id0 := (url.segments.getLast?).getD (("" : String))
  let id1 := if id0 = ("" : String) then ("_empty" : String) else id0
  id1 ++ ("-" : String) ++ short_hash url.serialize

/-- Alias for `ident`, usable inside the `GitSource` namespace where the
bare name resolves to the structure field of the same name. -/
def identOfUrl : Url → String := ident

/-- Test for the error case of a fallible result; models
`Result::is_err`. -/
def Except.isErr {ε α : Type} : Except ε α → Bool
  | .error _ => true
  | .ok _ => false

/-- Written from the words of the spec, for the refinement comparison of
claim C4, step 1: strip a single trailing path separator (the root path
keeps its separator, a URL with a host always has at least the root). -/
def stripTrailingSeparator (u : Url) : Url :=
  if u.segments.getLast? = some (("" : String)) ∧ 2 ≤ u.segments.length then
    { u with segments := u.segments.dropLast } else u

/-- Written from the words of the spec, step 2: if the host is the
well-known platform domain, force the secure scheme and lowercase the
entire path. -/
def hostSpecificNormalize (u : Url) : Url :=
  if u.host = some ("github.com" : String) then
    { u with scheme := ("https" : String), segments := u.segments.map lowerStr }
  else u

/-- Written from the words of the spec, step 3: strip a trailing literal
`".git"` from the final path segment, if present. -/
def stripVcsSuffix (u : Url) : Url :=
  match u.segments.getLast? with
  | some last =>
      if strEndsWith last (".git") then
        { u with segments := u.segments.dropLast ++ [strDropRight last 4] }
      else u
  | none => u

/-- The three spec transformations in the order the spec gives them. -/
def canonicalize_steps (u : Url) : Url :=
  stripVcsSuffix (hostSpecificNormalize (stripTrailingSeparator u))

/-- Regularity of the chop step: the pop-and-push of the final segment in
the source coincides with the spec wording (rewrite the final segment in
place) unless the path has exactly the shape of an empty segment followed
by the chopped segment (a path `//name.git`, which the pop collapses to
`/name`), or the chopped remainder is `"."` or `".."` (which the crate
refuses to push). -/
def chopRegular (segs : List String) : Bool :=
  !needsChopping segs ||
  (!(segs.length == 2 && segs.head? == some (("" : String))) &&
   !(strDropRight ((segs.getLast?).getD (("" : String))) 4 == ("." : String)) &&
   !(strDropRight ((segs.getLast?).getD (("" : String))) 4 == (".." : String)))

/-- The reference model of the source: `core::GitReference`, a closed
variant of branch, tag, and explicit revision. -/
inductive GitReference where
  | Branch (s : String)
  | Tag (s : String)
  | Rev (s : String)
deriving DecidableEq

/-- Errors of fallible collaborator operations (`CargoResult` failures),
carried as messages. -/
abbrev CargoError := String

/-- A resolved revision (`GitRevision` of the collaborator layer); its
`to_string` form is the string itself. -/
abbrev GitRevision := String

/-- Modelled from the spec: `core::source::SourceId` is not part of the
excerpt under src/.  The spec describes the SourceLocation as a raw URL, an
optional pinned precise revision, and an optional stored symbolic
reference; `is_git` records whether the location was registered as a
VCS source (the guard `source_id.is_git()` asserted by the constructor). -/
structure SourceId where
  url : Url
  precise : Option String
  git_reference : Option GitReference
  is_git : Bool
deriving DecidableEq

/-- Embedding of `SourceId::with_precise`: attach a resolved precise
revision, producing a new SourceId. -/
def SourceId.with_precise (sid : SourceId) (p : Option String) : SourceId :=
  { sid with precise := p }

/-- The remote handle of the collaborator layer (`GitRemote`); it carries
the URL, its operations are oracles of `GitOps`. -/
structure GitRemote where
  url : Url
deriving DecidableEq

/-- Embedding of `GitRemote::new`. -/
def GitRemote.new (url : Url) : GitRemote := ⟨url⟩

/-- The package-reader collaborator (`PathSource`): constructed from a
checkout directory and a source id; its operations are oracles of
`PathOps`. -/
structure PathSource where
  path : List String
  source_id : SourceId
deriving DecidableEq

/-- Embedding of `PathSource::new_recursive` (the configuration handle is
not modelled). -/
def PathSource.new_recursive (path : List String) (sid : SourceId) : PathSource :=
  ⟨path, sid⟩

/-- An opaque dependency request, as consumed by `query`. -/
structure Dependency where
  name : String
deriving DecidableEq

/-- An opaque package id, as consumed by `download`. -/
structure PackageId where
  name : String
deriving DecidableEq

/-- An opaque package, as produced by `download` and `read_packages`. -/
structure Package where
  name : String
deriving DecidableEq

/-- An opaque package summary, as produced by `query`. -/
structure Summary where
  name : String
deriving DecidableEq

/-- Outcome of an operation that can panic (Rust `assert!`, `unwrap`,
`expect`, `panic!`): either a value or a fatal panic with its message. -/
inductive PanicOr (α : Type) where
  | value (a : α)
  | panicked (msg : String)
deriving DecidableEq

/-- True iff the outcome is a panic. -/
def PanicOr.isPanic {α : Type} : PanicOr α → Bool
  | .panicked _ => true
  | .value _ => false

/-- Embedding of the state of `GitSource`: remote, chosen reference,
source id, optional bound package reader, optional resolved revision, and
the derived identity (the configuration handle is not modelled). -/
structure GitSource where
  remote : GitRemote
  reference : GitReference
  source_id : SourceId
  path_source : Option PathSource
  rev : Option GitRevision
  ident : String
deriving DecidableEq

/-- Embedding of `GitSource::new`: assert the id is a git id, derive the
identity from the URL, and pick the reference: a present precise revision
becomes a `Rev` reference, otherwise the stored symbolic reference is
taken (`unwrap` panics when it is absent). -/
def GitSource.new (source_id : SourceId) : PanicOr GitSource :=
  if source_id.is_git = false then .panicked ("id is not git") else
  let remote := GitRemote.new source_id.url
  let id := identOfUrl source_id.url
  match source_id.precise with
  | some s =>
      .value { remote := remote, reference := (.Rev s), source_id := source_id,
               path_source := none, rev := none, ident := id }
  | none =>
      match source_id.git_reference with
      | some r =>
          .value { remote := remote, reference := r, source_id := source_id,
                   path_source := none, rev := none, ident := id }
      | none => .panicked ("called Option::unwrap() on a None value")

/-- The collaborator calls `update` can make, recorded in order as a
trace: the lock, the resolution against the existing database, the entry
of the fetch branch (the `Updating` status message), the network
clone/fetch, the resolution against the fresh database, the opening of an
existing database, the checkout copy, and the update of the bound package
reader. -/
inductive OpCall where
  | lockGit
  | revForLocal
  | statusUpdating
  | checkoutFetch
  | revForFresh
  | dbAt
  | copyTo
  | pathSourceUpdate
deriving DecidableEq

/-- Oracles for the external collaborators consumed by `update` (locking
and shell of `Config`, the remote-access layer, and the update of the
bound `PathSource`).  Each field gives the outcome of the corresponding
call; the lock yields the cache root path (`lock.parent()`). -/
structure GitOps where
  lockGit : Except CargoError (List String)
  shellStatus : Except CargoError Unit
  revForLocal : List String → GitReference → Except CargoError GitRevision
  checkoutFetch : List String → Except CargoError Unit
  revForFresh : GitReference → Except CargoError GitRevision
  dbAt : List String → Except CargoError Unit
  copyTo : GitRevision → List String → Except CargoError Unit
  pathSourceUpdate : Except CargoError Unit

/-- Oracles for the operations of the bound package reader. -/
structure PathOps where
  query : PathSource → Dependency → Except CargoError (List Summary)
  download : PathSource → PackageId → Except CargoError Package
  read_packages : PathSource → Except CargoError (List Package)

/-- Result of `update`: success, error, or panic.  Every constructor
carries the state of the source after the call (Rust mutates `self` in
place, so mutations made before a failure persist) and the trace of
collaborator calls made. -/
inductive UpdateResult where
  | ok (st : GitSource) (trace : List OpCall)
  | err (e : CargoError) (st : GitSource) (trace : List OpCall)
  | panicked (msg : String) (st : GitSource) (trace : List OpCall)
deriving DecidableEq

/-- The trace of collaborator calls of an update result. -/
def UpdateResult.trace : UpdateResult → List OpCall
  | .ok _ t => t
  | .err _ _ t => t
  | .panicked _ _ t => t

/-- The state of the source after an update call. -/
def UpdateResult.state : UpdateResult → GitSource
  | .ok s _ => s
  | .err _ s _ => s
  | .panicked _ s _ => s

/-- True iff the update call returned successfully. -/
def UpdateResult.isOk : UpdateResult → Bool
  | .ok _ _ => true
  | _ => false

/-- Common tail of `update` after a revision has been resolved: copy the
database to the checkout location, rebuild the source id with the precise
revision, bind a recursive `PathSource` over the checkout, cache the
revision, and finish with the update of the bound reader.  The state is
mutated before the final fallible call, so a failure there leaves the
reader bound. -/
def finishUpdate (self : GitSource) (ops : GitOps) (checkout_path : List String)
    (actual_rev : GitRevision) (tr : List OpCall) : UpdateResult :=
  match ops.copyTo actual_rev checkout_path with
  | .error e => .err e self (tr ++ [.copyTo])
  | .ok _ =>
    let source_id := self.source_id.with_precise (some actual_rev)
    let path_source := PathSource.new_recursive checkout_path source_id
    let self := { self with path_source := some path_source, rev := some actual_rev }
    match ops.pathSourceUpdate with
    | .error e => .err e self (tr ++ [.copyTo, .pathSourceUpdate])
    | .ok _ => .ok self (tr ++ [.copyTo, .pathSourceUpdate])

/-- Embedding of `GitSource::update`: take the git lock; compute the
database path from the identity; read the checkout subdirectory name from
the stored symbolic reference of the source id (panicking when it is
absent); resolve the reference against the existing database; fetch iff
that resolution failed or no precise revision is pinned, re-resolving
against the fresh database, and otherwise reuse the local resolution over
the existing database; then materialize and bind via `finishUpdate`. -/
def GitSource.update (self : GitSource) (ops : GitOps) : UpdateResult :=
  match ops.lockGit with
  | .error e => .err e self [.lockGit]
  | .ok root =>
    let db_path := root ++ [("db" : String), self.ident]
    match self.source_id.git_reference with
    | none => .panicked ("not a git source") self [.lockGit]
    | some r =>
      let reference_path := match r with
        | .Branch s => s
        | .Tag s => s
        | .Rev s => s
      let checkout_path := root ++ [("checkouts" : String), self.ident, reference_path]
      let actual_rev := ops.revForLocal db_path self.reference
      let should_update := actual_rev.isErr || self.source_id.precise.isNone
      if should_update then
        match ops.shellStatus with
        | .error e => .err e self [.lockGit, .revForLocal, .statusUpdating]
        | .ok _ =>
          match ops.checkoutFetch db_path with
          | .error e => .err e self [.lockGit, .revForLocal, .statusUpdating, .checkoutFetch]
          | .ok _ =>
            match ops.revForFresh self.reference with
            | .error e =>
                .err e self [.lockGit, .revForLocal, .statusUpdating, .checkoutFetch, .revForFresh]
            | .ok rev =>
                finishUpdate self ops checkout_path rev
                  [.lockGit, .revForLocal, .statusUpdating, .checkoutFetch, .revForFresh]
      else
        match ops.dbAt db_path with
        | .error e => .err e self [.lockGit, .revForLocal, .dbAt]
        | .ok _ =>
          match actual_rev with
          | .ok rev => finishUpdate self ops checkout_path rev [.lockGit, .revForLocal, .dbAt]
          | .error _ =>
              .panicked ("called Result::unwrap() on an Err value") self [.lockGit, .revForLocal, .dbAt]

/-- Embedding of the `Registry::query` implementation of `GitSource`:
delegate to the bound package reader, with a fatal `expect` when `update`
has not bound one. -/
def GitSource.query (self : GitSource) (pops : PathOps) (dep : Dependency) :
    PanicOr (Except CargoError (List Summary)) :=
  match self.path_source with
  | none => .panicked ("BUG: update() must be called before query()")
  | some src => .value (pops.query src dep)

/-- Embedding of `Source::download` of `GitSource`: delegate to the bound
package reader, with a fatal `expect` when `update` has not bound one. -/
def GitSource.download (self : GitSource) (pops : PathOps) (id : PackageId) :
    PanicOr (Except CargoError Package) :=
  match self.path_source with
  | none => .panicked ("BUG: update() must be called before get()")
  | some src => .value (pops.download src id)

/-- Embedding of `Source::fingerprint` of `GitSource`: the string form of
the cached resolved revision, `unwrap`-ing the option (fatal when `update`
has not cached one); the package argument is ignored. -/
def GitSource.fingerprint (self : GitSource) (_pkg : Package) :
    PanicOr (Except CargoError String) :=
  match self.rev with
  | none => .panicked ("called Option::unwrap() on a None value")
  | some r => .value (Except.ok r)

/-- Embedding of `GitSource::read_packages`: run `update` first when no
package reader is bound, then delegate to the bound reader (the `unwrap`
after a successful update).  Returns the outcome, the state of the source
after the call, and the trace of the update call if one was made. -/
def GitSource.read_packages (self : GitSource) (ops : GitOps) (pops : PathOps) :
    PanicOr (Except CargoError (List Package)) × GitSource × List OpCall :=
  if self.path_source.isNone then
    match self.update ops with
    | .panicked m st tr => (.panicked m, st, tr)
    | .err e st tr => (.value (.error e), st, tr)
    | .ok st tr =>
      match st.path_source with
      | none => (.panicked ("called Option::unwrap() on a None value"), st, tr)
      | some ps => (.value (pops.read_packages ps), st, tr)
  else
    match self.path_source with
    | none => (.panicked ("called Option::unwrap() on a None value"), self, [])
    | some ps => (.value (pops.read_packages ps), self, [])

/-- The first mutation of `canonicalize_url` as a standalone function, for
stepwise reasoning: strip one trailing separator. -/
def stripStep (u : Url) : Url :=
  if u.segments.getLast? = some ("" : String) then
    { u with segments := popIfEmpty u.segments } else u

/-- The third mutation of `canonicalize_url` as a standalone function, for
stepwise reasoning: chop a trailing `".git"` by popping the final segment
and pushing its shortened form. -/
def chopStep (u : Url) : Url :=
  if needsChopping u.segments then
    { u with segments :=
        pushSeg (popSeg u.segments) (strDropRight ((u.segments.getLast?).getD ("" : String)) 4) }
  else u

/-- Lists of segments that lowercasing leaves unchanged. -/
def LowerFixed (l : List String) : Prop := l.map lowerStr = l

/-- A concrete repository URL, for concrete instances of the theorems. -/
def exUrl : Url :=
  { scheme := "https", username := "", password := none, host := some "github.com",
    segments := ["org", "repo"], query := none, fragment := none }

/-- A concrete source id with a branch reference and no precise revision. -/
def exSidBranch : SourceId :=
  { url := exUrl, precise := none, git_reference := some (.Branch "main"), is_git := true }

/-- A concrete source id with a branch reference and a pinned precise
revision. -/
def exSidPrecise : SourceId := { exSidBranch with precise := some "abc123" }

/-- A concrete source id with a pinned precise revision and no stored
symbolic reference. -/
def exSidNoRef : SourceId :=
  { url := exUrl, precise := some "abc123", git_reference := none, is_git := true }

/-- The freshly constructed source over `exSidBranch`. -/
def exSrcBranch : GitSource :=
  { remote := ⟨exUrl⟩, reference := .Branch "main", source_id := exSidBranch,
    path_source := none, rev := none, ident := "repo-x" }

/-- The freshly constructed source over `exSidPrecise`. -/
def exSrcPrecise : GitSource :=
  { exSrcBranch with source_id := exSidPrecise, reference := .Rev "abc123" }

/-- Collaborator oracles where every operation succeeds. -/
def exOps : GitOps :=
  { lockGit := .ok ["root"], shellStatus := .ok (),
    revForLocal := fun _ _ => .ok "l0cal", checkoutFetch := fun _ => .ok (),
    revForFresh := fun _ => .ok "fre5h", dbAt := fun _ => .ok (),
    copyTo := fun _ _ => .ok (), pathSourceUpdate := .ok () }

/-- Collaborator oracles where only the final package-reader update
fails. -/
def exOpsPsFail : GitOps := { exOps with pathSourceUpdate := .error "ps update failed" }

/-- Package-reader oracles with fixed successful answers. -/
def exPathOps : PathOps :=
  { query := fun _ _ => .ok [], download := fun _ _ => .ok ⟨"pkg"⟩,
    read_packages := fun _ => .ok [⟨"pkg"⟩] }

/-- A concrete dependency request. -/
def exDep : Dependency := ⟨"d"⟩

/-- A concrete package. -/
def exPkg : Package := ⟨"p"⟩

/-- A concrete package id. -/
def exPkgId : PackageId := ⟨"pid"⟩

/-- The state after a fully successful update of `exSrcBranch`. -/
def exStOk : GitSource := (exSrcBranch.update exOps).state

/-- The trace of a fully successful update of `exSrcBranch`. -/
def exTrOk : List OpCall := (exSrcBranch.update exOps).trace

/-- The state after a fully successful update of `exSrcPrecise`. -/
def exStPrecise : GitSource := (exSrcPrecise.update exOps).state

/-- The trace of a fully successful update of `exSrcPrecise`. -/
def exTrPrecise : List OpCall := (exSrcPrecise.update exOps).trace

/-- A concrete URL with a doubled trailing separator, over a generic
host. -/
def exUrlSlashes : Url :=
  { scheme := "https", username := "", password := none, host := some "example.com",
    segments := ["a", "", ""], query := none, fragment := none }

/-- A concrete URL whose path is an empty segment followed by a
`.git`-suffixed segment, over a generic host. -/
def exUrlDbl : Url :=
  { scheme := "https", username := "", password := none, host := some "example.com",
    segments := ["", "x.git"], query := none, fragment := none }

/-- A concrete hosted-platform URL whose repository name ends in
`.git`. -/
def exUrlAgit : Url :=
  { scheme := "https", username := "", password := none, host := some "github.com",
    segments := ["a.git"], query := none, fragment := none }

/-- The URL `exUrlAgit` with a literal `.git` suffix appended. -/
def exUrlAgitgit : Url :=
  { scheme := "https", username := "", password := none, host := some "github.com",
    segments := ["a.git.git"], query := none, fragment := none }

/-- The URL `exUrl` under the `git` scheme. -/
def exUrlGitScheme : Url := { exUrl with scheme := "git" }

/-- Every successful `update` binds the package reader over the checkout
and caches the resolved revision: the resulting state is the input state
with `path_source` bound to a recursive reader over a precise-pinned
source id and `rev` set. -/
theorem update_ok_shape (self : GitSource) (ops : GitOps) (st : GitSource) (tr : List OpCall)
    (h : self.update ops = .ok st tr) :
    ∃ rev cp, st = { self with
      path_source := some (PathSource.new_recursive cp (self.source_id.with_precise (some rev))),
      rev := some rev } := by
  simp only [GitSource.update, finishUpdate] at h
  split at h
  · cases h
  · split at h
    · cases h
    · split at h
      · split at h
        · cases h
        · split at h
          · cases h
          · split at h
            · cases h
            · split at h
              · cases h
              · split at h
                · cases h
                · injection h with h1 h2
                  exact ⟨_, _, h1.symm⟩
      · split at h
        · cases h
        · split at h
          · split at h
            · cases h
            · split at h
              · cases h
              · injection h with h1 h2
                exact ⟨_, _, h1.symm⟩
          · cases h

/-- The only panic `update` itself can raise is the missing-symbolic-
reference panic (the `unwrap` of the reused local resolution is
unreachable, the reuse branch requires that resolution to have
succeeded). -/
theorem update_panic_is_not_git (self : GitSource) (ops : GitOps) (m : String)
    (st : GitSource) (tr : List OpCall)
    (h : self.update ops = .panicked m st tr) : m = ("not a git source" : String) := by
  simp only [GitSource.update, finishUpdate] at h
  split at h
  · cases h
  · split at h
    · injection h with h1 _ _
      exact h1.symm
    · split at h
      · split at h
        · cases h
        · split at h
          · cases h
          · split at h
            · cases h
            · split at h
              · cases h
              · split at h <;> cases h
      · split at h
        · cases h
        · split at h
          · split at h
            · cases h
            · split at h <;> cases h
          · simp_all [Except.isErr]

/-- Characterization of the fetch decision of `update`: under a held lock
and a present symbolic reference, the fetch-and-resolve branch is entered
(witnessed by the `Updating` status call in the trace) iff the resolution
against the existing database failed or no precise revision is pinned. -/
theorem statusUpdating_mem (self : GitSource) (ops : GitOps) (root : List String)
    (r : GitReference) (hlock : ops.lockGit = .ok root)
    (href : self.source_id.git_reference = some r) :
    (OpCall.statusUpdating ∈ (self.update ops).trace) ↔
      ((ops.revForLocal (root ++ [("db" : String), self.ident]) self.reference).isErr = true
        ∨ self.source_id.precise = none) := by
  have hfin : ∀ (s : GitSource) (cp : List String) (rev : GitRevision) (t : List OpCall),
      (OpCall.statusUpdating ∈ (finishUpdate s ops cp rev t).trace) ↔
        OpCall.statusUpdating ∈ t := by
    intro s cp rev t
    unfold finishUpdate
    split
    · simp [UpdateResult.trace]
    · split <;> simp [UpdateResult.trace]
  simp only [GitSource.update, hlock, href]
  cases hrv : ops.revForLocal (root ++ [("db" : String), self.ident]) self.reference with
  | error e =>
    simp only [hrv, Except.isErr, Bool.true_or]
    simp only [if_pos]
    repeat' split
    all_goals try simp only [hfin]
    all_goals simp [UpdateResult.trace]
  | ok rev =>
    cases hp : self.source_id.precise with
    | none =>
      simp only [hrv, hp, Except.isErr, Option.isNone_none, Bool.or_true]
      simp only [if_pos]
      repeat' split
      all_goals try simp only [hfin]
      all_goals simp [UpdateResult.trace]
    | some p =>
      simp only [hrv, hp, Except.isErr, Option.isNone_some, Bool.or_false]
      simp only [Bool.false_eq_true, if_neg, not_false_iff]
      repeat' split
      all_goals try simp only [hfin]
      all_goals simp [UpdateResult.trace]

/-- With a pinned precise revision and a local database that resolves the
reference, a successful `update` reuses the local resolution: the trace is
exactly lock, local resolution, database open, copy, reader update (no
fetch), and the cached revision is the locally resolved one. -/
theorem update_no_fetch_precise (src : GitSource) (ops : GitOps) (root : List String)
    (p : String) (rev : GitRevision) (st : GitSource) (tr : List OpCall)
    (hl : ops.lockGit = .ok root) (hp : src.source_id.precise = some p)
    (hrv : ops.revForLocal (root ++ [("db" : String), src.ident]) src.reference = .ok rev)
    (h : src.update ops = .ok st tr) :
    tr = [.lockGit, .revForLocal, .dbAt, .copyTo, .pathSourceUpdate] ∧ st.rev = some rev := by
  simp only [GitSource.update, hl] at h
  cases href : src.source_id.git_reference with
  | none => simp [href] at h
  | some r =>
    simp only [href, hrv, hp, Except.isErr, Option.isNone_some, Bool.or_false] at h
    simp only [Bool.false_eq_true, if_neg, not_false_iff] at h
    cases hdb : ops.dbAt (root ++ [("db" : String), src.ident]) with
    | error e => simp [hdb] at h
    | ok u =>
      simp only [hdb] at h
      simp only [finishUpdate] at h
      split at h
      · cases h
      · split at h
        · cases h
        · injection h with h1 h2
          refine ⟨h2.symm, ?_⟩
          rw [← h1]

/-- Every source produced by the constructor starts uninitialized: no
package reader bound, no cached revision. -/
theorem new_value_uninitialized (sid : SourceId) (src : GitSource)
    (h : GitSource.new sid = .value src) : src.path_source = none ∧ src.rev = none := by
  simp only [GitSource.new] at h
  split at h
  · cases h
  · split at h
    · injection h with h1
      rw [← h1]
      exact ⟨rfl, rfl⟩
    · split at h
      · injection h with h1
        rw [← h1]
        exact ⟨rfl, rfl⟩
      · cases h

/-- Claim C1: in `update`, the fetch decision is: fetch iff resolving the
reference against the existing on-disk database failed or the source id
carries no precise revision.  Consequently a source with a branch
reference and no precise revision enters the fetch-and-resolve branch on
every `update` call that reaches the decision, database or not; and with a
precise revision pinned and a local database that resolves, `update`
performs no fetch and yields the locally resolved revision. -/
theorem update_fetch_decision :
    (∀ (src : GitSource) (ops : GitOps) (root : List String) (r : GitReference),
      ops.lockGit = .ok root → src.source_id.git_reference = some r →
      ((OpCall.statusUpdating ∈ (src.update ops).trace) ↔
        ((ops.revForLocal (root ++ [("db" : String), src.ident]) src.reference).isErr = true
          ∨ src.source_id.precise = none))) ∧
    (∀ (src : GitSource) (ops : GitOps) (root : List String) (r : GitReference) (b : String),
      ops.lockGit = .ok root → src.source_id.git_reference = some r →
      src.reference = .Branch b → src.source_id.precise = none →
      OpCall.statusUpdating ∈ (src.update ops).trace) ∧
    (∀ (src : GitSource) (ops : GitOps) (root : List String) (p : String)
        (rev : GitRevision) (st : GitSource) (tr : List OpCall),
      ops.lockGit = .ok root → src.source_id.precise = some p →
      ops.revForLocal (root ++ [("db" : String), src.ident]) src.reference = .ok rev →
      src.update ops = .ok st tr →
      OpCall.checkoutFetch ∉ tr ∧ OpCall.statusUpdating ∉ tr ∧ st.rev = some rev) := by
  refine ⟨fun src ops root r hl hr => statusUpdating_mem src ops root r hl hr, ?_, ?_⟩
  · intro src ops root r b hl hr _ hp
    exact (statusUpdating_mem src ops root r hl hr).mpr (Or.inr hp)
  · intro src ops root p rev st tr hl hp hrv h
    obtain ⟨htr, hrev⟩ := update_no_fetch_precise src ops root p rev st tr hl hp hrv h
    subst htr
    exact ⟨by simp, by simp, hrev⟩

/-- Concrete instance of claim C1 (the no-fetch consequence): the pinned
source updated over all-succeeding oracles reuses the local resolution. -/
theorem update_fetch_decision_witness :
    exOps.lockGit = .ok [("root" : String)] ∧
    exSrcPrecise.source_id.precise = some ("abc123" : String) ∧
    exOps.revForLocal ([("root" : String)] ++ [("db" : String), exSrcPrecise.ident])
      exSrcPrecise.reference = .ok ("l0cal" : String) ∧
    exSrcPrecise.update exOps = .ok exStPrecise exTrPrecise ∧
    (OpCall.checkoutFetch ∉ exTrPrecise ∧ OpCall.statusUpdating ∉ exTrPrecise ∧
      exStPrecise.rev = some ("l0cal" : String)) :=
  ⟨rfl, rfl, rfl, by decide,
    update_fetch_decision.2.2 exSrcPrecise exOps [("root" : String)] ("abc123" : String)
      ("l0cal" : String) exStPrecise exTrPrecise rfl rfl rfl (by decide)⟩

/-- Claim C2 counterexample: an `update` that fails only at the final
package-reader update is not a successful `update`, yet it leaves the
reader bound and the revision cached, so the subsequent `query` and
`fingerprint` do not panic. -/
theorem query_after_failed_update_not_fatal :
    (exSrcBranch.update exOpsPsFail).isOk = false ∧
    ((exSrcBranch.update exOpsPsFail).state.query exPathOps exDep).isPanic = false ∧
    ((exSrcBranch.update exOpsPsFail).state.fingerprint exPkg).isPanic = false := by
  decide

/-- Claim C2 (amended): on every source in the uninitialized state (no
reader bound, no revision cached — the state of every freshly constructed
source, weaker than requiring that no `update` completed successfully),
`query`, `download` and `fingerprint` fail fast with a fatal panic
identifying a programming bug, never a silently empty value. -/
theorem uninitialized_operations_panic (src : GitSource) (pops : PathOps)
    (dep : Dependency) (id : PackageId) (pkg : Package)
    (h1 : src.path_source = none) (h2 : src.rev = none) :
    src.query pops dep = .panicked ("BUG: update() must be called before query()") ∧
    src.download pops id = .panicked ("BUG: update() must be called before get()") ∧
    src.fingerprint pkg = .panicked ("called Option::unwrap() on a None value") ∧
    (∀ (sid : SourceId) (src2 : GitSource), GitSource.new sid = .value src2 →
      src2.path_source = none ∧ src2.rev = none) := by
  refine ⟨?_, ?_, ?_, fun sid src2 h => new_value_uninitialized sid src2 h⟩
  · simp [GitSource.query, h1]
  · simp [GitSource.download, h1]
  · simp [GitSource.fingerprint, h2]

/-- Concrete instance of amended claim C2: the fresh branch source panics
on `query`. -/
theorem uninitialized_operations_panic_witness :
    exSrcBranch.path_source = none ∧ exSrcBranch.rev = none ∧
    exSrcBranch.query exPathOps exDep =
      .panicked ("BUG: update() must be called before query()") :=
  ⟨rfl, rfl,
    (uninitialized_operations_panic exSrcBranch exPathOps exDep exPkgId exPkg rfl rfl).1⟩

/-- Claim C7: the constructor of `GitSource` builds the reference from the
source id: a present precise revision becomes a `Rev` reference bypassing
the stored symbolic reference, otherwise the stored symbolic reference is
used. -/
theorem new_reference_selection (sid : SourceId) (hg : sid.is_git = true) :
    (∀ s, sid.precise = some s →
      GitSource.new sid = .value
        { remote := GitRemote.new sid.url, reference := (.Rev s), source_id := sid,
          path_source := none, rev := none, ident := identOfUrl sid.url }) ∧
    (∀ r, sid.precise = none → sid.git_reference = some r →
      GitSource.new sid = .value
        { remote := GitRemote.new sid.url, reference := r, source_id := sid,
          path_source := none, rev := none, ident := identOfUrl sid.url }) := by
  constructor
  · intro s hp
    simp [GitSource.new, hg, hp, GitRemote.new]
  · intro r hp hr
    simp [GitSource.new, hg, hp, hr, GitRemote.new]

/-- Concrete instance of claim C7: the precise-pinned source id yields a
`Rev` reference. -/
theorem new_reference_selection_witness :
    exSidPrecise.is_git = true ∧ exSidPrecise.precise = some ("abc123" : String) ∧
    GitSource.new exSidPrecise = .value
      { remote := GitRemote.new exSidPrecise.url, reference := (.Rev ("abc123" : String)),
        source_id := exSidPrecise, path_source := none, rev := none,
        ident := identOfUrl exSidPrecise.url } :=
  ⟨rfl, rfl, (new_reference_selection exSidPrecise rfl).1 ("abc123" : String) rfl⟩

/-- Claim C8: after a successful `update`, `fingerprint` returns Ok of
exactly the cached resolved revision (its string form), for every package
argument; the result does not depend on the package. -/
theorem fingerprint_after_update (src : GitSource) (ops : GitOps) (st : GitSource)
    (tr : List OpCall) (h : src.update ops = .ok st tr) (pkg pkg2 : Package) :
    (∃ r, st.rev = some r ∧ st.fingerprint pkg = .value (Except.ok r)) ∧
    st.fingerprint pkg = st.fingerprint pkg2 := by
  obtain ⟨rev, cp, rfl⟩ := update_ok_shape src ops st tr h
  exact ⟨⟨rev, rfl, rfl⟩, rfl⟩

/-- Concrete instance of claim C8 over the successful update of the
branch source. -/
theorem fingerprint_after_update_witness :
    exSrcBranch.update exOps = .ok exStOk exTrOk ∧
    ((∃ r, exStOk.rev = some r ∧ exStOk.fingerprint exPkg = .value (Except.ok r)) ∧
      exStOk.fingerprint exPkg = exStOk.fingerprint ⟨("q" : String)⟩) :=
  ⟨by decide,
    fingerprint_after_update exSrcBranch exOps exStOk exTrOk (by decide) exPkg ⟨("q" : String)⟩⟩

/-- Claim C9: with no reader bound, `read_packages` runs `update` first
and only then delegates to the bound reader; an `update` error propagates;
the only panic it can surface is the missing-symbolic-reference panic of
`update` itself, never the fail-fast precondition panic of `query` and
`download`. -/
theorem read_packages_updates_first (src : GitSource) (ops : GitOps) (pops : PathOps)
    (h : src.path_source = none) :
    (∀ st tr, src.update ops = .ok st tr →
      ∃ ps, st.path_source = some ps ∧
        src.read_packages ops pops = (.value (pops.read_packages ps), st, tr)) ∧
    (∀ e st tr, src.update ops = .err e st tr →
      src.read_packages ops pops = (.value (.error e), st, tr)) ∧
    (∀ m st tr, src.update ops = .panicked m st tr →
      m = ("not a git source" : String) ∧ src.read_packages ops pops = (.panicked m, st, tr)) := by
  refine ⟨?_, ?_, ?_⟩
  · intro st tr hu
    obtain ⟨rev, cp, hst⟩ := update_ok_shape src ops st tr hu
    subst hst
    refine ⟨_, rfl, ?_⟩
    simp [GitSource.read_packages, h, hu]
  · intro e st tr hu
    simp [GitSource.read_packages, h, hu]
  · intro m st tr hu
    exact ⟨update_panic_is_not_git src ops m st tr hu,
      by simp [GitSource.read_packages, h, hu]⟩

/-- Concrete instance of claim C9: the fresh branch source performs the
full update lifecycle inside `read_packages` and then delegates. -/
theorem read_packages_updates_first_witness :
    exSrcBranch.path_source = none ∧ exSrcBranch.update exOps = .ok exStOk exTrOk ∧
    (∃ ps, exStOk.path_source = some ps ∧
      exSrcBranch.read_packages exOps exPathOps = (.value (exPathOps.read_packages ps), exStOk, exTrOk)) :=
  ⟨rfl, by decide,
    (read_packages_updates_first exSrcBranch exOps exPathOps rfl).1 exStOk exTrOk (by decide)⟩

/-- Claim C10: `update` reads the checkout subdirectory name from the
stored symbolic reference of the source id and panics when it is absent,
for every source, even one successfully constructed from a precise
revision alone (under the spec-modelled SourceId, where the symbolic
reference and the precise revision are independent optional fields). -/
theorem update_requires_symbolic_reference (ops : GitOps) (root : List String)
    (hl : ops.lockGit = .ok root) :
    (∀ (src : GitSource), src.source_id.git_reference = none →
      src.update ops = .panicked ("not a git source") src [.lockGit]) ∧
    (∀ (sid : SourceId) (p : String), sid.is_git = true → sid.precise = some p →
      sid.git_reference = none →
      ∃ src, GitSource.new sid = .value src ∧ src.reference = .Rev p ∧
        src.update ops = .panicked ("not a git source") src [.lockGit]) := by
  have key : ∀ (src : GitSource), src.source_id.git_reference = none →
      src.update ops = .panicked ("not a git source") src [.lockGit] := by
    intro src h
    simp [GitSource.update, hl, h]
  refine ⟨key, ?_⟩
  intro sid p hg hp hr
  refine ⟨{ remote := GitRemote.new sid.url, reference := (.Rev p), source_id := sid,
            path_source := none, rev := none, ident := identOfUrl sid.url }, ?_, rfl, ?_⟩
  · simp [GitSource.new, hg, hp, GitRemote.new]
  · exact key _ hr

/-- Concrete instance of claim C10: a git source id with a precise
revision and no symbolic reference constructs successfully and then
panics on `update`. -/
theorem update_requires_symbolic_reference_witness :
    exOps.lockGit = .ok [("root" : String)] ∧ exSidNoRef.is_git = true ∧
    exSidNoRef.precise = some ("abc123" : String) ∧ exSidNoRef.git_reference = none ∧
    (∃ src, GitSource.new exSidNoRef = .value src ∧ src.reference = .Rev ("abc123" : String) ∧
      src.update exOps = .panicked ("not a git source") src [.lockGit]) :=
  ⟨rfl, rfl, rfl, rfl,
    (update_requires_symbolic_reference exOps [("root" : String)] rfl).2 exSidNoRef
      ("abc123" : String) rfl rfl rfl⟩

/-- A natural number in the valid character range maps through `Char.ofNat`
with its value intact. -/
theorem toNat_ofNat_valid (n : Nat) (h : n.isValidChar) : (Char.ofNat n).toNat = n := by
  simp only [Char.ofNat, h, dif_pos, Char.ofNatAux, Char.toNat]
  simp [UInt32.toNat, UInt32.ofNatCore]

/-- Lowercasing a character is idempotent. -/
theorem toLower_idem (c : Char) : Char.toLower (Char.toLower c) = Char.toLower c := by
  unfold Char.toLower
  by_cases h : c.toNat ≥ 65 ∧ c.toNat ≤ 90
  · rw [if_pos h]
    have hv : (c.toNat + 32).isValidChar := by
      left
      omega
    rw [if_neg]
    rw [toNat_ofNat_valid _ hv]
    omega
  · rw [if_neg h, if_neg h]

/-- A string is empty iff its character list is. -/
theorem string_eq_empty_iff (s : String) : s = ("" : String) ↔ s.data = [] := by
  constructor
  · intro h
    rw [h]
  · intro h
    exact String.ext h

/-- The character list of a lowercased string. -/
theorem lowerStr_data (s : String) : (lowerStr s).data = s.data.map Char.toLower := rfl

/-- Lowercasing a string is idempotent. -/
theorem lowerStr_idem (s : String) : lowerStr (lowerStr s) = lowerStr s := by
  apply String.ext
  simp only [lowerStr_data, List.map_map]
  exact List.map_congr_left (fun c _ => toLower_idem c)

/-- Lowercasing distributes over string append. -/
theorem lowerStr_append (s t : String) : lowerStr (s ++ t) = lowerStr s ++ lowerStr t := by
  apply String.ext
  simp [lowerStr_data, String.data_append]

/-- Lowercasing preserves emptiness in both directions. -/
theorem lowerStr_eq_empty_iff (s : String) : lowerStr s = ("" : String) ↔ s = ("" : String) := by
  rw [string_eq_empty_iff, string_eq_empty_iff, lowerStr_data, List.map_eq_nil_iff]

/-- The version-control suffix is already lowercase. -/
theorem lowerStr_dotgit : lowerStr (".git") = (".git" : String) := by decide

/-- The suffix test is the suffix relation on character lists. -/
theorem strEndsWith_iff (s t : String) : strEndsWith s t = true ↔ t.data <:+ s.data := by
  simp [strEndsWith, List.isSuffixOf_iff_suffix]

/-- Appending a suffix makes the suffix test succeed. -/
theorem strEndsWith_append_self (s t : String) : strEndsWith (s ++ t) t = true := by
  rw [strEndsWith_iff, String.data_append]
  exact List.suffix_append s.data t.data

/-- Dropping the four characters of an appended `".git"` recovers the
original string. -/
theorem strDropRight_append_dotgit (s : String) :
    strDropRight (s ++ (".git" : String)) 4 = s := by
  apply String.ext
  simp only [strDropRight, String.data_append]
  have hlen : (s.data ++ (".git" : String).data).length = s.data.length + 4 := by
    simp [List.length_append]
  rw [hlen]
  simp only [Nat.add_sub_cancel]
  exact List.take_left s.data _

/-- A string with an appended `".git"` is never empty. -/
theorem append_dotgit_ne_empty (s : String) : s ++ (".git" : String) ≠ ("" : String) := by
  intro h
  rw [string_eq_empty_iff, String.data_append, List.append_eq_nil] at h
  exact absurd h.2 (by decide)

/-- Lowercasing commutes with dropping trailing characters. -/
theorem lowerStr_strDropRight (s : String) (n : Nat) :
    lowerStr (strDropRight s n) = strDropRight (lowerStr s) n := by
  apply String.ext
  simp only [lowerStr_data, strDropRight, List.length_map, List.map_take]

/-- The image of a lowercasing map is lowercase-fixed. -/
theorem lowerFixed_map (l : List String) : LowerFixed (l.map lowerStr) := by
  unfold LowerFixed
  rw [List.map_map]
  exact List.map_congr_left (fun s _ => lowerStr_idem s)

/-- The root path is lowercase-fixed. -/
theorem lowerFixed_root : LowerFixed [("" : String)] := rfl

/-- Dropping the last segment preserves lowercase-fixedness. -/
theorem lowerFixed_dropLast (l : List String) (h : LowerFixed l) : LowerFixed l.dropLast := by
  unfold LowerFixed at h ⊢
  rw [List.map_dropLast, h]

/-- Popping a segment preserves lowercase-fixedness. -/
theorem lowerFixed_popSeg (l : List String) (h : LowerFixed l) : LowerFixed (popSeg l) := by
  unfold popSeg
  split
  · exact lowerFixed_root
  · exact lowerFixed_dropLast l h

/-- Pushing a lowercase-fixed segment preserves lowercase-fixedness. -/
theorem lowerFixed_pushSeg (l : List String) (s : String) (hl : LowerFixed l)
    (hs : lowerStr s = s) : LowerFixed (pushSeg l s) := by
  unfold pushSeg
  split
  · split
    · exact lowerFixed_root
    · unfold LowerFixed
      simp [hs]
  · unfold LowerFixed at hl ⊢
    simp [hl, hs]

/-- The last segment of a lowercase-fixed list is lowercase-fixed. -/
theorem lowerFixed_getLast (l : List String) (h : LowerFixed l) :
    lowerStr ((l.getLast?).getD ("" : String)) = (l.getLast?).getD ("" : String) := by
  have h1 : (l.getLast?).map lowerStr = l.getLast? := by
    rw [← List.getLast?_map]
    unfold LowerFixed at h
    rw [h]
  cases h2 : l.getLast? with
  | none => rfl
  | some a =>
    rw [h2] at h1
    have h3 : some (lowerStr a) = some a := by simpa using h1
    simp only [Option.getD_some]
    injection h3

/-- The needs-chopping test after appending a segment is the suffix test
on that segment. -/
theorem needsChopping_concat (l : List String) (s : String) :
    needsChopping (l ++ [s]) = strEndsWith s (".git") := by
  simp [needsChopping, List.getLast?_concat]

/-- A lowercase image is the root singleton iff the original is. -/
theorem map_lowerStr_eq_root_iff (l : List String) :
    l.map lowerStr = [("" : String)] ↔ l = [("" : String)] := by
  constructor
  · intro h
    cases l with
    | nil => cases h
    | cons a t =>
      cases t with
      | nil =>
        simp only [List.map_cons, List.map_nil, List.cons.injEq, and_true] at h
        rw [(lowerStr_eq_empty_iff a).mp h]
      | cons b t2 => simp at h
  · intro h
    rw [h]
    rfl

/-- `canonicalize_url` is the composition of the strip, host-normalize and
chop mutations. -/
theorem canonicalize_url_decomp (u : Url) :
    canonicalize_url u = chopStep (hostSpecificNormalize (stripStep u)) := rfl

/-- The strip step changes only the segments. -/
theorem stripStep_fields (u : Url) :
    (stripStep u).scheme = u.scheme ∧ (stripStep u).username = u.username ∧
    (stripStep u).password = u.password ∧ (stripStep u).host = u.host ∧
    (stripStep u).query = u.query ∧ (stripStep u).fragment = u.fragment := by
  unfold stripStep
  split <;> exact ⟨rfl, rfl, rfl, rfl, rfl, rfl⟩

/-- The host-normalize step changes only the scheme and the segments. -/
theorem hostSpecificNormalize_fields (u : Url) :
    (hostSpecificNormalize u).username = u.username ∧
    (hostSpecificNormalize u).password = u.password ∧
    (hostSpecificNormalize u).host = u.host ∧
    (hostSpecificNormalize u).query = u.query ∧
    (hostSpecificNormalize u).fragment = u.fragment := by
  unfold hostSpecificNormalize
  split <;> exact ⟨rfl, rfl, rfl, rfl, rfl⟩

/-- The chop step changes only the segments. -/
theorem chopStep_fields (u : Url) :
    (chopStep u).scheme = u.scheme ∧ (chopStep u).username = u.username ∧
    (chopStep u).password = u.password ∧ (chopStep u).host = u.host ∧
    (chopStep u).query = u.query ∧ (chopStep u).fragment = u.fragment := by
  unfold chopStep
  split <;> exact ⟨rfl, rfl, rfl, rfl, rfl, rfl⟩

/-- Canonicalization preserves host, query, fragment and credentials. -/
theorem canonicalize_fields (u : Url) :
    (canonicalize_url u).host = u.host ∧ (canonicalize_url u).query = u.query ∧
    (canonicalize_url u).fragment = u.fragment ∧
    (canonicalize_url u).username = u.username ∧
    (canonicalize_url u).password = u.password := by
  rw [canonicalize_url_decomp]
  obtain ⟨s1, s2, s3, s4, s5, s6⟩ := stripStep_fields u
  obtain ⟨h1, h2, h3, h4, h5⟩ := hostSpecificNormalize_fields (stripStep u)
  obtain ⟨c1, c2, c3, c4, c5, c6⟩ := chopStep_fields (hostSpecificNormalize (stripStep u))
  exact ⟨by rw [c4, h3, s4], by rw [c5, h4, s5], by rw [c6, h5, s6],
    by rw [c2, h1, s2], by rw [c3, h2, s3]⟩

/-- On the hosted-platform domain the host-normalize step forces the
secure scheme and lowercases the segments. -/
theorem hostSpecificNormalize_github (u : Url) (h : u.host = some ("github.com" : String)) :
    hostSpecificNormalize u =
      { u with scheme := ("https" : String), segments := u.segments.map lowerStr } := by
  unfold hostSpecificNormalize
  rw [if_pos h]

/-- The chop step preserves lowercase-fixedness of the segments. -/
theorem chopStep_lowerFixed (u : Url) (h : LowerFixed u.segments) :
    LowerFixed (chopStep u).segments := by
  unfold chopStep
  split
  · refine lowerFixed_pushSeg _ _ (lowerFixed_popSeg _ h) ?_
    rw [lowerStr_strDropRight, lowerFixed_getLast _ h]
  · exact h

/-- After canonicalization of a hosted-platform URL, the scheme is the
secure one and the segments are lowercase-fixed. -/
theorem canonicalize_github (u : Url) (h : u.host = some ("github.com" : String)) :
    (canonicalize_url u).scheme = ("https" : String) ∧
    LowerFixed (canonicalize_url u).segments := by
  rw [canonicalize_url_decomp]
  have hh : (stripStep u).host = some ("github.com" : String) := by
    rw [(stripStep_fields u).2.2.2.1, h]
  rw [hostSpecificNormalize_github _ hh]
  constructor
  · exact (chopStep_fields _).1
  · exact chopStep_lowerFixed _ (lowerFixed_map _)

/-- Identity depends only on the canonical URL. -/
theorem ident_congr (u v : Url) (h : canonicalize_url u = canonicalize_url v) :
    ident u = ident v := by
  unfold ident
  rw [h]

/-- A URL whose segments have no droppable trailing separator, whose
hosted-platform normalization is already applied, and whose final segment
does not end in the version-control suffix, is a fixed point of
canonicalization. -/
theorem canonicalize_fixpoint (v : Url)
    (hs : ¬(2 ≤ v.segments.length ∧ v.segments.getLast? = some ("" : String)))
    (hg : v.host = some ("github.com" : String) →
      v.scheme = ("https" : String) ∧ LowerFixed v.segments)
    (hc : needsChopping v.segments = false) :
    canonicalize_url v = v := by
  rw [canonicalize_url_decomp]
  have h1 : stripStep v = v := by
    unfold stripStep
    split
    · unfold popIfEmpty
      rw [if_neg hs]
    · rfl
  rw [h1]
  have h2 : hostSpecificNormalize v = v := by
    unfold hostSpecificNormalize
    split
    · rename_i hh
      obtain ⟨hsch, hfix⟩ := hg hh
      unfold LowerFixed at hfix
      rw [hfix, ← hsch]
    · rfl
  rw [h2]
  unfold chopStep
  rw [if_neg (by rw [hc]; exact Bool.false_ne_true)]

/-- Claim C3 counterexample: `canonicalize_url` is not idempotent; a URL
with a doubled trailing separator loses one separator per application. -/
theorem canonicalize_url_not_idempotent :
    canonicalize_url (canonicalize_url exUrlSlashes) ≠ canonicalize_url exUrlSlashes := by
  decide

/-- Claim C3 (amended): `canonicalize_url` is idempotent on every URL
whose canonical form has no droppable trailing empty segment and whose
canonical final segment does not end in the version-control suffix; the
two excluded families (paths with repeated trailing separators, and final
segments still ending in the suffix after one chop) shrink further under a
second application. -/
theorem canonicalize_url_idempotent_amended (u : Url)
    (h1 : ¬(2 ≤ (canonicalize_url u).segments.length ∧
      (canonicalize_url u).segments.getLast? = some ("" : String)))
    (h2 : needsChopping (canonicalize_url u).segments = false) :
    canonicalize_url (canonicalize_url u) = canonicalize_url u := by
  apply canonicalize_fixpoint _ h1 _ h2
  intro hh
  have hu : u.host = some ("github.com" : String) := by
    rw [← (canonicalize_fields u).1, hh]
  exact canonicalize_github u hu

/-- Concrete instance of amended claim C3 at a regular repository URL. -/
theorem canonicalize_url_idempotent_amended_witness :
    (¬(2 ≤ (canonicalize_url exUrl).segments.length ∧
      (canonicalize_url exUrl).segments.getLast? = some ("" : String))) ∧
    needsChopping (canonicalize_url exUrl).segments = false ∧
    canonicalize_url (canonicalize_url exUrl) = canonicalize_url exUrl :=
  ⟨by decide, by decide,
    canonicalize_url_idempotent_amended exUrl (by decide) (by decide)⟩

/-- The strip mutation of the source agrees with the spec wording of
step 1. -/
theorem stripStep_eq_stripTrailingSeparator (u : Url) :
    stripStep u = stripTrailingSeparator u := by
  unfold stripStep stripTrailingSeparator popIfEmpty
  by_cases hl : u.segments.getLast? = some ("" : String)
  · by_cases h2 : 2 ≤ u.segments.length
    · simp [hl, h2]
    · simp [hl, h2]
  · simp [hl]

/-- Pop-then-push of the final segment agrees with rewriting the final
segment in place, away from the degenerate two-segment path with an empty
head. -/
theorem pushSeg_popSeg_eq (segs : List String) (e : String) (hne : segs ≠ [])
    (hreg : ¬(segs.length = 2 ∧ segs.head? = some ("" : String))) :
    pushSeg (popSeg segs) e = segs.dropLast ++ [e] := by
  unfold popSeg
  by_cases hlen : segs.length ≤ 1
  · have h1 : segs.length = 1 := by
      have := List.length_pos_of_ne_nil hne
      omega
    obtain ⟨a, ha⟩ := List.length_eq_one.mp h1
    subst ha
    rw [if_pos (by omega)]
    unfold pushSeg
    rw [if_pos rfl]
    by_cases he : e = ("" : String)
    · rw [if_pos he, he]
      rfl
    · rw [if_neg he]
      rfl
  · rw [if_neg hlen]
    unfold pushSeg
    rw [if_neg]
    intro hdl
    apply hreg
    have hlast : segs.dropLast ++ [segs.getLast hne] = segs := List.dropLast_append_getLast hne
    rw [hdl] at hlast
    constructor
    · rw [← hlast]
      simp
    · rw [← hlast]
      rfl

/-- Under the regularity condition, the chop mutation of the source agrees
with the spec wording of step 3. -/
theorem chopStep_eq_stripVcsSuffix (w : Url) (hr : chopRegular w.segments = true) :
    chopStep w = stripVcsSuffix w := by
  unfold chopStep stripVcsSuffix
  by_cases hnc : needsChopping w.segments = true
  · cases hlast : w.segments.getLast? with
    | none =>
      exfalso
      unfold needsChopping at hnc
      rw [hlast] at hnc
      exact absurd hnc (by decide)
    | some last =>
      have hends : strEndsWith last (".git") = true := by
        unfold needsChopping at hnc
        rw [hlast] at hnc
        exact hnc
      have hne : w.segments ≠ [] := by
        intro h
        rw [h] at hlast
        cases hlast
      have hreg : ¬(w.segments.length = 2 ∧ w.segments.head? = some ("" : String)) := by
        unfold chopRegular at hr
        rw [hnc] at hr
        intro hx
        simp [hx.1, hx.2] at hr
      rw [if_pos hnc]
      simp only [hlast, Option.getD_some]
      rw [if_pos hends]
      rw [pushSeg_popSeg_eq w.segments _ hne hreg]
  · rw [if_neg hnc]
    cases hlast : w.segments.getLast? with
    | none => simp only [hlast]
    | some last =>
      simp only [hlast]
      rw [if_neg]
      intro hends
      apply hnc
      unfold needsChopping
      rw [hlast]
      exact hends

/-- Claim C4 counterexample: on the path `//x.git` the source does not
merely rewrite the final segment; the pop of the final segment collapses
the remaining root to a single separator, so the result differs from the
spec transformation list. -/
theorem canonicalize_url_steps_counterexample :
    canonicalize_url exUrlDbl ≠ canonicalize_steps exUrlDbl := by decide

/-- Claim C4 (amended): `canonicalize_url` alters neither host, query,
fragment nor credentials, and applies exactly the three spec
transformations in order, provided the chop of the final segment is
regular (the path after the first two steps is not an empty segment
followed by the suffixed segment, and the chopped remainder is not a dot
segment); in the excluded degenerate case the pop-and-push of the final
segment also collapses the leading empty segment. -/
theorem canonicalize_url_steps_amended (u : Url) :
    (canonicalize_url u).host = u.host ∧ (canonicalize_url u).query = u.query ∧
    (canonicalize_url u).fragment = u.fragment ∧
    (canonicalize_url u).username = u.username ∧
    (canonicalize_url u).password = u.password ∧
    (chopRegular ((hostSpecificNormalize (stripTrailingSeparator u)).segments) = true →
      canonicalize_url u = canonicalize_steps u) := by
  obtain ⟨f1, f2, f3, f4, f5⟩ := canonicalize_fields u
  refine ⟨f1, f2, f3, f4, f5, ?_⟩
  intro hreg
  rw [canonicalize_url_decomp, stripStep_eq_stripTrailingSeparator]
  unfold canonicalize_steps
  exact chopStep_eq_stripVcsSuffix _ hreg

/-- Concrete instance of amended claim C4 at a regular repository URL. -/
theorem canonicalize_url_steps_amended_witness :
    chopRegular ((hostSpecificNormalize (stripTrailingSeparator exUrl)).segments) = true ∧
    canonicalize_url exUrl = canonicalize_steps exUrl :=
  ⟨by decide, (canonicalize_url_steps_amended exUrl).2.2.2.2.2 (by decide)⟩

/-- Claim C5: the identity is the last canonical path segment (with the
fixed placeholder for an absent or empty segment) joined by a dash to the
short hash of the full canonical URL; it is a pure function of the
canonical URL, so canonically equal URLs share the identity. -/
theorem ident_structure (u v : Url) :
    (ident u =
      (match (canonicalize_url u).segments.getLast? with
        | some s => if s = ("" : String) then ("_empty" : String) else s
        | none => ("_empty" : String)) ++ ("-" : String) ++
        short_hash (canonicalize_url u).serialize) ∧
    (canonicalize_url u = canonicalize_url v → ident u = ident v) := by
  constructor
  · simp only [ident]
    cases h : (canonicalize_url u).segments.getLast? with
    | none => rfl
    | some s => rfl
  · exact ident_congr u v

/-- Concrete instance of claim C5: the scheme variants of the repository
URL canonicalize identically and share the identity. -/
theorem ident_structure_witness :
    canonicalize_url exUrl = canonicalize_url exUrlGitScheme ∧
    ident exUrl = ident exUrlGitScheme :=
  ⟨by decide, (ident_structure exUrl exUrlGitScheme).2 (by decide)⟩

/-- If two segment lists have the same lowercase image and one ends in the
empty segment, so does the other. -/
theorem getLast_empty_of_lower (l1 l2 : List String)
    (h : l1.map lowerStr = l2.map lowerStr) (hl : l1.getLast? = some ("" : String)) :
    l2.getLast? = some ("" : String) := by
  have hglast : (l1.getLast?).map lowerStr = (l2.getLast?).map lowerStr := by
    rw [← List.getLast?_map, ← List.getLast?_map, h]
  rw [hl] at hglast
  cases h2 : l2.getLast? with
  | none =>
    rw [h2] at hglast
    cases hglast
  | some a =>
    rw [h2] at hglast
    injection hglast with ha
    have hb : lowerStr a = ("" : String) := by
      rw [← ha]
      rfl
    rw [(lowerStr_eq_empty_iff a).mp hb]

/-- Canonicalization of a hosted-platform URL depends on the path only
through its lowercase image. -/
theorem canonicalize_lower_eq (sch user : String) (pass : Option String)
    (segs1 segs2 : List String) (q f : Option String)
    (hm : segs1.map lowerStr = segs2.map lowerStr) :
    canonicalize_url ⟨sch, user, pass, some ("github.com" : String), segs1, q, f⟩ =
    canonicalize_url ⟨sch, user, pass, some ("github.com" : String), segs2, q, f⟩ := by
  have hlen : segs1.length = segs2.length := by
    have h := congrArg List.length hm
    simpa using h
  by_cases hc : segs1.getLast? = some ("" : String)
  · have hc2 : segs2.getLast? = some ("" : String) := getLast_empty_of_lower _ _ hm hc
    have hm2 : (popIfEmpty segs1).map lowerStr = (popIfEmpty segs2).map lowerStr := by
      unfold popIfEmpty
      by_cases h2 : 2 ≤ segs1.length
      · rw [if_pos ⟨h2, hc⟩, if_pos ⟨by omega, hc2⟩, List.map_dropLast, List.map_dropLast, hm]
      · rw [if_neg (fun hx => h2 hx.1), if_neg (fun hx => h2 (by omega : 2 ≤ segs1.length)), hm]
    rw [canonicalize_url_decomp, canonicalize_url_decomp]
    have e1 : stripStep ⟨sch, user, pass, some ("github.com" : String), segs1, q, f⟩ =
        ⟨sch, user, pass, some ("github.com" : String), popIfEmpty segs1, q, f⟩ := by
      unfold stripStep
      rw [if_pos hc]
    have e2 : stripStep ⟨sch, user, pass, some ("github.com" : String), segs2, q, f⟩ =
        ⟨sch, user, pass, some ("github.com" : String), popIfEmpty segs2, q, f⟩ := by
      unfold stripStep
      rw [if_pos hc2]
    rw [e1, e2, hostSpecificNormalize_github _ rfl, hostSpecificNormalize_github _ rfl]
    exact congrArg chopStep (by rw [show ((⟨sch, user, pass, some ("github.com" : String),
      popIfEmpty segs1, q, f⟩ : Url)).segments.map lowerStr = (popIfEmpty segs2).map lowerStr
      from hm2])
  · have hc2 : ¬ segs2.getLast? = some ("" : String) :=
      fun h => hc (getLast_empty_of_lower _ _ hm.symm h)
    rw [canonicalize_url_decomp, canonicalize_url_decomp]
    have e1 : stripStep ⟨sch, user, pass, some ("github.com" : String), segs1, q, f⟩ =
        ⟨sch, user, pass, some ("github.com" : String), segs1, q, f⟩ := by
      unfold stripStep
      rw [if_neg hc]
    have e2 : stripStep ⟨sch, user, pass, some ("github.com" : String), segs2, q, f⟩ =
        ⟨sch, user, pass, some ("github.com" : String), segs2, q, f⟩ := by
      unfold stripStep
      rw [if_neg hc2]
    rw [e1, e2, hostSpecificNormalize_github _ rfl, hostSpecificNormalize_github _ rfl]
    exact congrArg chopStep (by rw [show ((⟨sch, user, pass, some ("github.com" : String),
      segs1, q, f⟩ : Url)).segments.map lowerStr = segs2.map lowerStr from hm])

/-- Appending one trailing empty segment to a path that does not already
end in one canonicalizes identically to the path itself. -/
theorem canonicalize_slash_eq (sch user : String) (pass : Option String)
    (host : Option String) (segs : List String) (q f : Option String)
    (hne : segs ≠ []) (hlast : segs.getLast? ≠ some ("" : String)) :
    canonicalize_url ⟨sch, user, pass, host, segs ++ [("" : String)], q, f⟩ =
    canonicalize_url ⟨sch, user, pass, host, segs, q, f⟩ := by
  rw [canonicalize_url_decomp, canonicalize_url_decomp]
  have e1 : stripStep ⟨sch, user, pass, host, segs ++ [("" : String)], q, f⟩ =
      ⟨sch, user, pass, host, segs, q, f⟩ := by
    unfold stripStep
    rw [if_pos (List.getLast?_concat segs)]
    unfold popIfEmpty
    rw [if_pos ⟨by
        have := List.length_pos_of_ne_nil hne
        simp only [List.length_append, List.length_cons, List.length_nil]
        omega,
      List.getLast?_concat segs⟩]
    rw [List.dropLast_concat]
  have e2 : stripStep ⟨sch, user, pass, host, segs, q, f⟩ =
      ⟨sch, user, pass, host, segs, q, f⟩ := by
    unfold stripStep
    rw [if_neg hlast]
  rw [e1, e2]

/-- Pop-then-push over a freshly appended final segment rewrites that
segment, provided the pushed segment is nonempty and the remaining prefix
is not the root singleton. -/
theorem pushSeg_popSeg_concat (L : List String) (x e : String)
    (he : e ≠ ("" : String)) (hL : L ≠ [("" : String)]) :
    pushSeg (popSeg (L ++ [x])) e = L ++ [e] := by
  cases L with
  | nil =>
    have h1 : popSeg ([] ++ [x]) = [("" : String)] := by
      unfold popSeg
      rw [if_pos (by simp)]
    rw [h1]
    unfold pushSeg
    rw [if_pos rfl, if_neg he]
    rfl
  | cons a t =>
    have h1 : popSeg (a :: t ++ [x]) = a :: t := by
      unfold popSeg
      rw [if_neg (by simp), List.dropLast_concat]
    rw [h1]
    unfold pushSeg
    rw [if_neg hL]

/-- The chop step on an explicit record. -/
theorem chopStep_record (sch user : String) (pass : Option String) (host : Option String)
    (L : List String) (q f : Option String) :
    chopStep ⟨sch, user, pass, host, L, q, f⟩ =
      (if needsChopping L then
        (⟨sch, user, pass, host,
          pushSeg (popSeg L) (strDropRight ((L.getLast?).getD ("" : String)) 4), q, f⟩ : Url)
      else ⟨sch, user, pass, host, L, q, f⟩) := rfl

/-- Appending a literal `".git"` to the final nonempty segment of a
hosted-platform URL (whose lowercase form does not already end in the
suffix, and whose remaining path is not the root singleton) canonicalizes
identically to the URL without the suffix. -/
theorem canonicalize_gitsuffix_eq (sch user : String) (pass : Option String)
    (segs : List String) (q f : Option String) (s : String)
    (hs : s ≠ ("" : String)) (hgit : strEndsWith (lowerStr s) (".git") = false)
    (hroot : segs ≠ [("" : String)]) :
    canonicalize_url
      ⟨sch, user, pass, some ("github.com" : String), segs ++ [s ++ (".git" : String)], q, f⟩ =
    canonicalize_url ⟨sch, user, pass, some ("github.com" : String), segs ++ [s], q, f⟩ := by
  have hsl : lowerStr s ≠ ("" : String) := fun h => hs ((lowerStr_eq_empty_iff s).mp h)
  have hLroot : segs.map lowerStr ≠ [("" : String)] :=
    fun h => hroot ((map_lowerStr_eq_root_iff segs).mp h)
  rw [canonicalize_url_decomp, canonicalize_url_decomp]
  have e1 : stripStep ⟨sch, user, pass, some ("github.com" : String),
      segs ++ [s ++ (".git" : String)], q, f⟩ =
      ⟨sch, user, pass, some ("github.com" : String), segs ++ [s ++ (".git" : String)], q, f⟩ := by
    unfold stripStep
    rw [if_neg (by
      rw [List.getLast?_concat]
      intro h
      injection h with h
      exact append_dotgit_ne_empty s h)]
  have e2 : stripStep ⟨sch, user, pass, some ("github.com" : String), segs ++ [s], q, f⟩ =
      ⟨sch, user, pass, some ("github.com" : String), segs ++ [s], q, f⟩ := by
    unfold stripStep
    rw [if_neg (by
      rw [List.getLast?_concat]
      intro h
      injection h with h
      exact hs h)]
  rw [e1, e2, hostSpecificNormalize_github _ rfl, hostSpecificNormalize_github _ rfl]
  have hm1 : (segs ++ [s ++ (".git" : String)]).map lowerStr =
      segs.map lowerStr ++ [lowerStr s ++ (".git" : String)] := by
    rw [List.map_append, List.map_singleton, lowerStr_append, lowerStr_dotgit]
  have hm2 : (segs ++ [s]).map lowerStr = segs.map lowerStr ++ [lowerStr s] := by
    rw [List.map_append, List.map_singleton]
  show chopStep ⟨("https" : String), user, pass, some ("github.com" : String),
      (segs ++ [s ++ (".git" : String)]).map lowerStr, q, f⟩ =
    chopStep ⟨("https" : String), user, pass, some ("github.com" : String),
      (segs ++ [s]).map lowerStr, q, f⟩
  rw [hm1, hm2, chopStep_record, chopStep_record]
  rw [if_pos (by rw [needsChopping_concat]; exact strEndsWith_append_self _ _)]
  rw [if_neg (by rw [needsChopping_concat, hgit]; exact Bool.false_ne_true)]
  rw [List.getLast?_concat]
  simp only [Option.getD_some]
  rw [strDropRight_append_dotgit, pushSeg_popSeg_concat _ _ _ hsl hLroot]

/-- Canonicalization of a hosted-platform URL ignores the incoming
scheme. -/
theorem canonicalize_scheme_eq (sch1 sch2 user : String) (pass : Option String)
    (segs : List String) (q f : Option String) :
    canonicalize_url ⟨sch1, user, pass, some ("github.com" : String), segs, q, f⟩ =
    canonicalize_url ⟨sch2, user, pass, some ("github.com" : String), segs, q, f⟩ := by
  rw [canonicalize_url_decomp, canonicalize_url_decomp]
  by_cases hc : segs.getLast? = some ("" : String)
  · have e1 : stripStep ⟨sch1, user, pass, some ("github.com" : String), segs, q, f⟩ =
        ⟨sch1, user, pass, some ("github.com" : String), popIfEmpty segs, q, f⟩ := by
      unfold stripStep
      rw [if_pos hc]
    have e2 : stripStep ⟨sch2, user, pass, some ("github.com" : String), segs, q, f⟩ =
        ⟨sch2, user, pass, some ("github.com" : String), popIfEmpty segs, q, f⟩ := by
      unfold stripStep
      rw [if_pos hc]
    rw [e1, e2, hostSpecificNormalize_github _ rfl, hostSpecificNormalize_github _ rfl]
  · have e1 : stripStep ⟨sch1, user, pass, some ("github.com" : String), segs, q, f⟩ =
        ⟨sch1, user, pass, some ("github.com" : String), segs, q, f⟩ := by
      unfold stripStep
      rw [if_neg hc]
    have e2 : stripStep ⟨sch2, user, pass, some ("github.com" : String), segs, q, f⟩ =
        ⟨sch2, user, pass, some ("github.com" : String), segs, q, f⟩ := by
      unfold stripStep
      rw [if_neg hc]
    rw [e1, e2, hostSpecificNormalize_github _ rfl, hostSpecificNormalize_github _ rfl]

/-- Claim C6 counterexample: for a hosted-platform repository whose name
already ends in `.git`, appending a further `.git` suffix changes the
identity (only one suffix is chopped per canonicalization). -/
theorem ident_git_suffix_counterexample : ident exUrlAgit ≠ ident exUrlAgitgit := by
  decide

/-- Claim C6 (amended): the identity is invariant under appending a single
trailing separator to a path that does not already end in one; and for the
`github.com` host, under case changes of the path, under appending a
`.git` suffix to a final segment that is nonempty, is not a dot segment,
and does not already end in `.git` (case-insensitively, with the rest of
the path not the bare root), and under scheme changes.  A final segment
already carrying the suffix is the excluded case the counterexample
exhibits. -/
theorem ident_invariances (sch sch2 user : String) (pass : Option String)
    (host : Option String) (segs : List String) (q f : Option String) (s : String) :
    (segs ≠ [] → segs.getLast? ≠ some ("" : String) →
      ident ⟨sch, user, pass, host, segs ++ [("" : String)], q, f⟩ =
        ident ⟨sch, user, pass, host, segs, q, f⟩) ∧
    (∀ segs2, segs.map lowerStr = segs2.map lowerStr →
      ident ⟨sch, user, pass, some ("github.com" : String), segs, q, f⟩ =
        ident ⟨sch, user, pass, some ("github.com" : String), segs2, q, f⟩) ∧
    (s ≠ ("" : String) → s ≠ ("." : String) → s ≠ (".." : String) →
      strEndsWith (lowerStr s) (".git") = false → segs ≠ [("" : String)] →
      ident ⟨sch, user, pass, some ("github.com" : String),
          segs ++ [s ++ (".git" : String)], q, f⟩ =
        ident ⟨sch, user, pass, some ("github.com" : String), segs ++ [s], q, f⟩) ∧
    (ident ⟨sch, user, pass, some ("github.com" : String), segs, q, f⟩ =
      ident ⟨sch2, user, pass, some ("github.com" : String), segs, q, f⟩) := by
  refine ⟨?_, ?_, ?_, ?_⟩
  · intro hne hlast
    exact ident_congr _ _ (canonicalize_slash_eq sch user pass host segs q f hne hlast)
  · intro segs2 hm
    exact ident_congr _ _ (canonicalize_lower_eq sch user pass segs segs2 q f hm)
  · intro hs _ _ hgit hroot
    exact ident_congr _ _ (canonicalize_gitsuffix_eq sch user pass segs q f s hs hgit hroot)
  · exact ident_congr _ _ (canonicalize_scheme_eq sch sch2 user pass segs q f)

/-- Concrete instance of amended claim C6 (the `.git`-suffix part) at the
repository URL. -/
theorem ident_invariances_witness :
    (("repo" : String) ≠ ("" : String) ∧ ("repo" : String) ≠ ("." : String) ∧
      ("repo" : String) ≠ (".." : String) ∧
      strEndsWith (lowerStr ("repo")) (".git") = false ∧
      (["org"] : List String) ≠ [("" : String)]) ∧
    ident ⟨("https" : String), ("" : String), none, some ("github.com" : String),
        ["org"] ++ [("repo" : String) ++ (".git" : String)], none, none⟩ =
      ident ⟨("https" : String), ("" : String), none, some ("github.com" : String),
        ["org"] ++ [("repo" : String)], none, none⟩ :=
  ⟨⟨by decide, by decide, by decide, by decide, by decide⟩,
    (ident_invariances ("https") ("git") ("") none (some ("github.com")) ["org"] none none
      ("repo")).2.2.1 (by decide) (by decide) (by decide) (by decide) (by decide)⟩
